import Mathlib

/-!
Verification development for the element-context-capture MCP server.

This file gives a shallow embedding of the two core source files
(`src/mcp-server/src/schema.js` and the `ElementStorage` class of
`src/mcp-server/src/storage.js`) and proves the spec's claims about them.

Modelling conventions:
* A JavaScript string is a `List Char` (`Str`); "units" in the spec are
  characters of that list.  The character-class tests (`\w`, `toLowerCase`)
  are exact on ASCII, which is also where Lean's `Char.isAlpha`/`Char.toLower`
  agree with JavaScript.
* JavaScript primitive values that the code stores in record fields are
  `JSVal`; an absent object property is `Option.none`, a present property
  holds `some v` (so the `'field' in data` test is `Option.isSome`).
* `Date.now()` is an explicit `now : Int` argument; every storage operation
  that reads the clock once takes it as a parameter.
* Code that can throw a `TypeError` (calling a string method on a
  non-string) is embedded in `Except Unit`.
* The `ElementStorage` instance state is a `Store`; the JavaScript `Map` is
  an insertion-ordered association list with the `Map` update semantics
  (`set` of an existing key keeps its original position, `delete` removes
  the entry, iteration is in insertion order).
-/

/-- JavaScript strings, as lists of characters. -/
abbrev Str := List Char

/-- The JavaScript primitive values that can sit in a captured-element field. -/
inductive JSVal where
  | vstr (s : Str)
  | vnum (n : Int)
  | vbool (b : Bool)
  | vnull
  | vundefined
deriving DecidableEq

/-- JavaScript truthiness of a primitive value. -/
def JSVal.truthy : JSVal → Bool
  | .vstr s => !s.isEmpty
  | .vnum n => decide (n ≠ 0)
  | .vbool b => b
  | .vnull => false
  | .vundefined => false

/-- Reading an object property: an absent property reads as `undefined`. -/
def propRead (v : Option JSVal) : JSVal := v.getD .vundefined

/-- Truthiness of a property read (`if (obj.field)`). -/
def truthyOpt (v : Option JSVal) : Bool := (propRead v).truthy

/-- `s.toLowerCase()`; exact on ASCII. -/
def lowerStr (s : Str) : Str := s.map Char.toLower

/-- The regex word-character class `\w` = `[A-Za-z0-9_]`. -/
def jsWordChar (c : Char) : Bool := c.isAlpha || c.isDigit || c = '_'

/-- The regex class `\s` (ASCII part; the Unicode space characters JavaScript
also accepts do not occur in the properties under proof). -/
def jsWhitespace (c : Char) : Bool :=
  c = ' ' || c = '\t' || c = '\n' || c = '\r' || c = '\x0b' || c = '\x0c'

/-- `hay.includes(needle)`: `needle` occurs as a contiguous substring. -/
def strIncludes (needle : Str) : Str → Bool
  | [] => needle.isEmpty
  | c :: cs => needle.isPrefixOf (c :: cs) || strIncludes needle cs

/-- Case-insensitive "starts with": `pat` is given lower-case. -/
def ciStartsWith (l pat : Str) : Bool := pat.isPrefixOf (lowerStr l)

/-! ### The two scrubbing regexes of `sanitizeElement`

`html.replace(/<script\b[^<]*(?:(?!<\/script>)<[^<]*)*<\/script>/gi, '')` and
`html.replace(/\son\w+="[^"]*"/gi, '')`.  Both regexes are deterministic
(each starred class stops exactly at the next `<` resp. `"` because the
continuation requires that character), so a backtracking-free scanner is an
exact model.  Global replacement scans left to right, deleting each match
and resuming right after it, and advancing one character when no match
starts at the current position. -/

def scriptOpenPat : Str := "<script".toList

def scriptClosePat : Str := "</script>".toList

/-- After `<script\b`, skip `[^<]*` and the `(?:(?!<\/script>)<[^<]*)*` loop
until the literal `</script>` (case-insensitive); `none` when the close tag
never comes, i.e. the whole match attempt fails. -/
def seekScriptClose : Str → Option Str
  | [] => none
  | c :: cs =>
    if c = '<' then
      if ciStartsWith (c :: cs) scriptClosePat then some ((c :: cs).drop scriptClosePat.length)
      else seekScriptClose cs
    else seekScriptClose cs

/-- Match the script-tag regex at the head of `l`; on success return the rest
of the input after the match. -/
def matchScriptAt (l : Str) : Option Str :=
  if ciStartsWith l scriptOpenPat then
    let rest := l.drop scriptOpenPat.length
    -- \b after the word character 't': the next character must not be a
    -- word character (or the input ends)
    if (match rest with | [] => true | c :: _ => !jsWordChar c) then
      seekScriptClose rest
    else none
  else none

/-- Global replacement driver for the script regex.  The fuel starts at the
input length; a successful match consumes at least the open and close tags,
so the fuel never runs out before the input does and the fuel-0 branch is
unreachable from `removeScripts`. -/
def removeScriptsAux : Nat → Str → Str
  | 0, l => l
  | _, [] => []
  | Nat.succ n, c :: cs =>
    match matchScriptAt (c :: cs) with
    | some rest => removeScriptsAux n rest
    | none => c :: removeScriptsAux n cs

def removeScripts (s : Str) : Str := removeScriptsAux s.length s

/-- Match `\son\w+="[^"]*"` at the head of `l`; on success return the rest of
the input after the match. -/
def matchHandlerAt (l : Str) : Option Str :=
  match l with
  | [] => none
  | c :: cs =>
    if jsWhitespace c then
      match cs with
      | o :: n :: rest =>
        if o.toLower = 'o' && n.toLower = 'n' then
          let word := rest.takeWhile jsWordChar
          let rest2 := rest.dropWhile jsWordChar
          if word.isEmpty then none
          else
            match rest2 with
            | '=' :: '"' :: rest3 =>
              let rest4 := rest3.dropWhile (fun ch => ch ≠ '"')
              match rest4 with
              | '"' :: rest5 => some rest5
              | _ => none
            | _ => none
        else none
      | _ => none
    else none

/-- Global replacement driver for the event-handler regex (same fuel argument
as `removeScriptsAux`). -/
def removeHandlersAux : Nat → Str → Str
  | 0, l => l
  | _, [] => []
  | Nat.succ n, c :: cs =>
    match matchHandlerAt (c :: cs) with
    | some rest => removeHandlersAux n rest
    | none => c :: removeHandlersAux n cs

def removeHandlers (s : Str) : Str := removeHandlersAux s.length s

/-- The two `replace` calls of `sanitizeElement`, in source order. -/
def scrubHtml (s : Str) : Str := removeHandlers (removeScripts s)

/-! ### `schema.js` -/

/-- A captured-element object, restricted to the fields the code under proof
reads or writes (`id`, `timestamp`, `url`, `selector`, `html`, `text`,
`attributes`, `screenshot`, `_screenshotTruncated`).  The remaining fields
(`computed`, `bounds`, `context`) are carried through every operation
untouched and are omitted from the embedding.  `attributes`, when present,
is the contents of the attributes object in property-creation order;
`screenshotTruncated` models the `_screenshotTruncated` property, absent
(`false`) unless the sanitizer sets it. -/
structure RawElement where
  id : Option JSVal
  timestamp : Option JSVal
  url : Option JSVal
  selector : Option JSVal
  html : Option JSVal
  text : Option JSVal
  attributes : Option (List (Str × Str))
  screenshot : Option JSVal
  screenshotTruncated : Bool
deriving DecidableEq

/-- `validateCapturedElement` of `schema.js`.  (The `!data || typeof data !==
'object'` guard is discharged by the embedding: a `RawElement` is an object.)
Note the required-field loop checks only presence for `html` and `text`;
their types are never checked. -/
def validateCapturedElement (e : RawElement) : Bool :=
  e.id.isSome && e.timestamp.isSome && e.url.isSome && e.selector.isSome
    && e.html.isSome && e.text.isSome
    && (match e.id with | some (.vstr s) => !s.isEmpty | _ => false)
    && (match e.timestamp with | some (.vnum n) => decide (0 < n) | _ => false)
    && (match e.url with | some (.vstr s) => "http".toList.isPrefixOf s | _ => false)
    && (match e.selector with | some (.vstr s) => !s.isEmpty | _ => false)

/-- The sensitive-attribute blocklist of `sanitizeElement`. -/
def sensitiveAttrs : List Str :=
  ["password".toList, "token".toList, "secret".toList, "key".toList, "auth".toList]

/-- `sensitiveAttrs.some(s => attr.toLowerCase().includes(s))`. -/
def isSensitiveKey (k : Str) : Bool :=
  sensitiveAttrs.any (fun s => strIncludes s (lowerStr k))

def redactedToken : Str := "[REDACTED]".toList

def truncMarker : Str := "... [TRUNCATED]".toList

/-- The redaction loop of `sanitizeElement`, acting on the attributes object
contents. -/
def redactAttrs (m : List (Str × Str)) : List (Str × Str) :=
  m.map (fun kv => if isSensitiveKey kv.1 then (kv.1, redactedToken) else kv)

/-- `v.length > n` for a property read: `.length` of a non-string is
`undefined`, and `undefined > n` is `false`. -/
def jsLenGt (v : Option JSVal) (n : Nat) : Bool :=
  match v with
  | some (.vstr s) => decide (n < s.length)
  | _ => false

/-- The `if (sanitized.html) { sanitized.html.replace(...) ... }` step:
skipped when `html` is falsy, a `TypeError` when `html` is truthy but not a
string. -/
def scrubStep (html : Option JSVal) : Except Unit (Option JSVal) :=
  if truthyOpt html then
    match html with
    | some (.vstr s) => .ok (some (.vstr (scrubHtml s)))
    | _ => .error ()
  else .ok html

/-- `sanitizeElement` of `schema.js`.  `const sanitized = {...element}` copies
the field values, so the `attributes` field of the copy aliases the caller's
attributes object and the redaction loop mutates that shared object in
place; every other write is a plain field write on the copy.  The embedding
makes the shared mutation explicit by returning both the sanitized record
and the caller-visible record after the call. -/
def sanitizeElement (e : RawElement) : Except Unit (RawElement × RawElement) :=
  match scrubStep e.html with
  | .error err => .error err
  | .ok html1 =>
    let attrs := e.attributes.map redactAttrs
    let html2 :=
      if truthyOpt html1 && jsLenGt html1 50000 then
        match html1 with
        | some (.vstr s) => some (JSVal.vstr (s.take 50000 ++ truncMarker))
        | v => v
      else html1
    let text2 :=
      if truthyOpt e.text && jsLenGt e.text 10000 then
        match e.text with
        | some (.vstr s) => some (JSVal.vstr (s.take 10000 ++ truncMarker))
        | v => v
      else e.text
    let shot :=
      if truthyOpt e.screenshot && jsLenGt e.screenshot 1000000 then
        (some (JSVal.vstr []), true)
      else (e.screenshot, e.screenshotTruncated)
    Except.ok ({ e with
                  html := html2
                  text := text2
                  attributes := attrs
                  screenshot := shot.1
                  screenshotTruncated := shot.2 },
               { e with attributes := attrs })

/-! ### `storage.js` -/

/-- One value of the `elements` map: the sanitized record together with its
absolute expiry time (`Date.now() + this.ttl` at admission). -/
structure StoreEntry where
  data : RawElement
  expiresAt : Int
deriving DecidableEq

/-- The `ElementStorage` instance state.  `elements` is the JavaScript `Map`
as an insertion-ordered association list; `timerActive` records whether
`cleanupTimer` is non-null. -/
structure Store where
  elements : List (JSVal × StoreEntry)
  maxElements : Nat
  ttl : Int
  timerActive : Bool
deriving DecidableEq

/-- `Map.prototype.get`. -/
def mapGet (m : List (JSVal × StoreEntry)) (k : JSVal) : Option StoreEntry :=
  match m with
  | [] => none
  | kv :: rest => if kv.1 = k then some kv.2 else mapGet rest k

/-- `Map.prototype.set`: updating an existing key keeps its original position
in the iteration order, a new key is appended at the end. -/
def mapSet (m : List (JSVal × StoreEntry)) (k : JSVal) (v : StoreEntry) :
    List (JSVal × StoreEntry) :=
  match m with
  | [] => [(k, v)]
  | kv :: rest => if kv.1 = k then (k, v) :: rest else kv :: mapSet rest k v

/-- `Map.prototype.delete` (keys of a `Map` are unique, so removing the first
occurrence is removing the only one). -/
def mapDelete (m : List (JSVal × StoreEntry)) (k : JSVal) :
    List (JSVal × StoreEntry) :=
  match m with
  | [] => []
  | kv :: rest => if kv.1 = k then rest else kv :: mapDelete rest k

/-- `this.elements.keys().next().value`: the first key in insertion order,
`undefined` on an empty map. -/
def firstKey : List (JSVal × StoreEntry) → JSVal
  | [] => .vundefined
  | kv :: _ => kv.1

/-- The entries surviving an expiry pass at time `now`: the code deletes an
entry exactly when `now > entry.expiresAt`. -/
def liveFilter (now : Int) (m : List (JSVal × StoreEntry)) :
    List (JSVal × StoreEntry) :=
  m.filter (fun kv => !decide (kv.2.expiresAt < now))

/-- The number of entries a read at time `now` can still see. -/
def liveCount (s : Store) (now : Int) : Nat := (liveFilter now s.elements).length

/-- The `timestamp` field read as a number.  Admission validates `timestamp`
to be a positive number, so stored records always hit the `vnum` arm; the
default arm totalizes the function on junk states. -/
def tsOf (e : RawElement) : Int :=
  match e.timestamp with
  | some (.vnum n) => n
  | _ => 0

/-- One step of a stable descending-by-`timestamp` sort: insert `x` before
the first element whose timestamp is `≤` its own, after all strictly greater
ones.  `x` is original-order-earlier than every element of the list it is
inserted into, so ties keep the original order. -/
def insertByTs (x : RawElement) : List RawElement → List RawElement
  | [] => [x]
  | y :: ys => if tsOf y ≤ tsOf x then x :: y :: ys else y :: insertByTs x ys

/-- `validElements.sort((a, b) => b.timestamp - a.timestamp)`:
`Array.prototype.sort` is required to be stable, and a stable sort is
uniquely determined by the comparator, so stable insertion sort is an exact
model. -/
def sortByTsDesc (l : List RawElement) : List RawElement := l.foldr insertByTs []

namespace ElementStorage

/-- `ElementStorage.add`.  A `TypeError` thrown inside `sanitizeElement`
(truthy non-string `html`) propagates out of `add` before any state
change. -/
def add (s : Store) (now : Int) (e : RawElement) : Except Unit (Bool × Store) :=
  if !validateCapturedElement e then .ok (false, s)
  else
    match sanitizeElement e with
    | .error err => .error err
    | .ok (sanitized, _callerAfter) =>
      let els0 :=
        if s.maxElements ≤ s.elements.length then
          mapDelete s.elements (firstKey s.elements)
        else s.elements
      Except.ok (true,
        { s with elements := mapSet els0 (propRead sanitized.id)
                   { data := sanitized, expiresAt := now + s.ttl } })

/-- `ElementStorage.get`: returns the record unless `Date.now() >
entry.expiresAt`, in which case the entry is deleted and `null` returned. -/
def get (s : Store) (now : Int) (id : JSVal) : Option RawElement × Store :=
  match mapGet s.elements id with
  | none => (none, s)
  | some entry =>
    if entry.expiresAt < now then
      (none, { s with elements := mapDelete s.elements id })
    else (some entry.data, s)

/-- `ElementStorage.getAll`: one pass over the map deleting every entry with
`now > expiresAt` and collecting the survivors in insertion order, then the
stable sort by `timestamp` descending. -/
def getAll (s : Store) (now : Int) : List RawElement × Store :=
  let survivors := liveFilter now s.elements
  (sortByTsDesc (survivors.map (fun kv => kv.2.data)),
   { s with elements := survivors })

/-- `element.field.toLowerCase()`: a `TypeError` unless the field holds a
string. -/
def jsToLowerStr (v : JSVal) : Except Unit Str :=
  match v with
  | .vstr s => .ok (lowerStr s)
  | _ => .error ()

/-- The filter predicate of `ElementStorage.search`.  `||` short-circuits,
so a `TypeError` from a later field is only raised when every earlier field
failed to match. -/
def matchesQuery (lq : Str) (e : RawElement) : Except Unit Bool :=
  match jsToLowerStr (propRead e.selector) with
  | .error err => .error err
  | .ok sel =>
    if strIncludes lq sel then .ok true
    else
      match jsToLowerStr (propRead e.text) with
      | .error err => .error err
      | .ok tx =>
        if strIncludes lq tx then .ok true
        else
          match jsToLowerStr (propRead e.html) with
          | .error err => .error err
          | .ok ht =>
            if strIncludes lq ht then .ok true
            else
              match jsToLowerStr (propRead e.url) with
              | .error err => .error err
              | .ok u => .ok (strIncludes lq u)

/-- `Array.prototype.filter` with a throwing predicate: elements are tested
left to right and an exception aborts the whole call. -/
def filterExcept (p : RawElement → Except Unit Bool) :
    List RawElement → Except Unit (List RawElement)
  | [] => .ok []
  | e :: rest =>
    match p e with
    | .error err => .error err
    | .ok b =>
      match filterExcept p rest with
      | .error err => .error err
      | .ok tail => .ok (if b then e :: tail else tail)

/-- `ElementStorage.search`: lower-case the query, take `getAll()` (whose
lazy-expiry side effect persists even if the filter later throws), and
filter.  The two `Date.now()` reads of the call are the same instant `now`. -/
def search (s : Store) (now : Int) (q : Str) :
    Except Unit (List RawElement) × Store :=
  let lq := lowerStr q
  let all := getAll s now
  (filterExcept (matchesQuery lq) all.1, all.2)

/-- `ElementStorage.clear`. -/
def clear (s : Store) : Store := { s with elements := [] }

/-- `ElementStorage.cleanup`: the periodic sweep, deleting every entry with
`now > expiresAt`. -/
def cleanup (s : Store) (now : Int) : Store :=
  { s with elements := liveFilter now s.elements }

/-- `ElementStorage.destroy`: clear the interval timer if it is set, null it,
then `clear()`. -/
def destroy (s : Store) : Store :=
  let s1 := if s.timerActive then { s with timerActive := false } else s
  clear s1

end ElementStorage

/-- `new ElementStorage({})`: the defaults `maxElements = 50`,
`ttl = 3600000`, `cleanupInterval = 300000`, with the sweep timer running. -/
def defaultStore : Store :=
  { elements := [], maxElements := 50, ttl := 3600000, timerActive := true }

/-! ### Spec-side definitions -/

/-- Spec-side reading of one field test of `search`: the lower-cased query
occurs in the field, which must hold a string.  Stated from the spec's words
for the refinement proof of the search claim. -/
def fieldMatch (lq : Str) (v : Option JSVal) : Bool :=
  match v with
  | some (.vstr a) => strIncludes lq (lowerStr a)
  | _ => false

/-- Spec-side search predicate: the query matches the `selector`, `text`,
`html` or `url` field (logical OR). -/
def searchMatchSpec (lq : Str) (d : RawElement) : Bool :=
  fieldMatch lq d.selector || fieldMatch lq d.text || fieldMatch lq d.html
    || fieldMatch lq d.url

/-! ### Fixture records and stores for the concrete theorems -/

/-- A fully string-typed captured element (the shape every well-formed
producer submission has). -/
def strElem (i : Str) (ts : Int) (u sel ht tx : Str) : RawElement :=
  { id := some (.vstr i), timestamp := some (.vnum ts), url := some (.vstr u),
    selector := some (.vstr sel), html := some (.vstr ht), text := some (.vstr tx),
    attributes := none, screenshot := none, screenshotTruncated := false }

def c1Data : RawElement :=
  strElem "a".toList 1 "http://u".toList "s".toList "h".toList "t".toList

/-- A store holding one entry whose `expiresAt` is exactly the current time
of the upcoming reads. -/
def c1Store : Store :=
  { elements := [(JSVal.vstr "a".toList, { data := c1Data, expiresAt := 0 })],
    maxElements := 50, ttl := 3600000, timerActive := true }

/-- Witness for the amended C1 theorem: in a concrete store whose single
entry expired at time 3, a `get` at time 5 returns nothing and deletes the
entry. -/
def w1Data : RawElement :=
  strElem "w".toList 1 "http://w".toList "s".toList "h".toList "t".toList

def w1Store : Store :=
  { elements := [(JSVal.vstr "w".toList, { data := w1Data, expiresAt := 3 })],
    maxElements := 50, ttl := 10, timerActive := true }

def c2Old : RawElement :=
  strElem "o".toList 1 "http://o".toList "s".toList "h".toList "t".toList

def c2New : RawElement :=
  strElem "n".toList 2 "http://n".toList "s2".toList "h2".toList "t2".toList

/-- A store at capacity 1 whose single entry is already expired at the time
of the next admission. -/
def c2Store : Store :=
  { elements := [(JSVal.vstr "o".toList, { data := c2Old, expiresAt := 0 })],
    maxElements := 1, ttl := 10, timerActive := true }

def w2Elem : RawElement :=
  strElem "w2".toList 4 "http://w2".toList "s".toList "h".toList "t".toList

def c3Elem : RawElement :=
  { id := some (.vstr "i".toList), timestamp := some (.vnum 1),
    url := some (.vstr "http://u".toList), selector := some (.vstr "s".toList),
    html := none, text := none,
    attributes := some [("token".toList, "v".toList)],
    screenshot := none, screenshotTruncated := false }

def c3After : RawElement :=
  { c3Elem with attributes := some [("token".toList, redactedToken)] }

def w3Elem : RawElement :=
  { id := some (.vstr "i".toList), timestamp := some (.vnum 2),
    url := some (.vstr "http://w3".toList), selector := some (.vstr "s".toList),
    html := some (.vstr "h".toList), text := some (.vstr "t".toList),
    attributes := some [("x-token".toList, "v".toList), ("class".toList, "btn".toList)],
    screenshot := none, screenshotTruncated := false }

def w3Red : RawElement :=
  { w3Elem with
      attributes := some [("x-token".toList, redactedToken), ("class".toList, "btn".toList)] }

/-- The truncation arm shared by the `html` and `text` size caps: cut a
string-valued field at `n` characters and append the marker (any other value
is left alone; the guard is false for those anyway). -/
def capField (v : Option JSVal) (n : Nat) : Option JSVal :=
  match v with
  | some (.vstr s) => some (JSVal.vstr (s.take n ++ truncMarker))
  | v => v

def c4Elem : RawElement :=
  strElem "c4".toList 1 "http://u".toList "s".toList
    "<script>a</script>".toList "t".toList

def w4Elem : RawElement :=
  strElem "w4".toList 3 "http://w4".toList "sel".toList "h".toList "tt".toList

def c5A : RawElement :=
  strElem "a".toList 5 "http://a".toList "sa".toList "ha".toList "ta".toList

def c5B : RawElement :=
  strElem "b".toList 5 "http://b".toList "sb".toList "hb".toList "tb".toList

/-- Two live entries with equal `capturedAt`, `a` inserted before `b`. -/
def c5Store : Store :=
  { elements := [(JSVal.vstr "a".toList, { data := c5A, expiresAt := 100 }),
                 (JSVal.vstr "b".toList, { data := c5B, expiresAt := 100 })],
    maxElements := 50, ttl := 3600000, timerActive := true }

def w6Elem : RawElement :=
  strElem "w6".toList 1 "http://w6".toList "Div.Hello".toList "hh".toList "tt".toList

def w6Store : Store :=
  { elements := [(JSVal.vstr "w6".toList, { data := w6Elem, expiresAt := 100 })],
    maxElements := 50, ttl := 3600000, timerActive := true }

def w7Elem : RawElement :=
  { id := some (.vstr []), timestamp := some (.vnum 1),
    url := some (.vstr "http://u".toList), selector := some (.vstr "s".toList),
    html := some (.vstr "h".toList), text := some (.vstr "t".toList),
    attributes := none, screenshot := none, screenshotTruncated := false }

def c9Attrs : List (Str × Str) :=
  [("x-token".toList, "v".toList), ("class".toList, "btn".toList)]

def c9Elem : RawElement :=
  { id := some (.vstr "c9".toList), timestamp := some (.vnum 1),
    url := some (.vstr "http://u".toList), selector := some (.vstr "s".toList),
    html := some (.vstr "h".toList), text := some (.vstr "t".toList),
    attributes := some c9Attrs, screenshot := none, screenshotTruncated := false }

def c9OutStore : Store :=
  { defaultStore with
      elements := [(JSVal.vstr "c9".toList,
        { data := { c9Elem with
            attributes := some [("x-token".toList, redactedToken),
                                ("class".toList, "btn".toList)] },
          expiresAt := 3600000 })] }

def c10Elem : RawElement :=
  { id := some (.vstr "n".toList), timestamp := some (.vnum 1),
    url := some (.vstr "http://y".toList), selector := some (.vstr "s".toList),
    html := some (.vstr "h".toList), text := some (.vnum 7),
    attributes := none, screenshot := none, screenshotTruncated := false }

def c10Store : Store :=
  { defaultStore with
      elements := [(JSVal.vstr "n".toList, { data := c10Elem, expiresAt := 3600000 })] }

/-! ### Helper lemmas -/

theorem isPrefixOf_true_iff : ∀ (p l : Str), p.isPrefixOf l = true ↔ p <+: l
  | [], l => by simp [List.isPrefixOf]
  | a :: as, [] => by simp [List.isPrefixOf]
  | a :: as, b :: bs => by
    simp [List.isPrefixOf, List.cons_prefix_cons, isPrefixOf_true_iff as bs,
      Bool.and_eq_true, beq_iff_eq, And.comm]

theorem strIncludes_true_iff (n : Str) : ∀ (h : Str), strIncludes n h = true ↔ n <:+: h
  | [] => by
    simp [strIncludes, List.isEmpty_iff]
  | c :: cs => by
    rw [strIncludes, Bool.or_eq_true, isPrefixOf_true_iff, strIncludes_true_iff n cs]
    constructor
    · rintro (hp | hi)
      · exact hp.isInfix
      · exact hi.trans (List.infix_cons (List.infix_refl cs))
    · rintro ⟨s, t, hst⟩
      match s, hst with
      | [], hst => exact Or.inl ⟨t, hst⟩
      | x :: xs, hst =>
        refine Or.inr ⟨xs, t, ?_⟩
        have := congrArg List.tail hst
        simpa using this

theorem mapGet_mapSet_self (m : List (JSVal × StoreEntry)) (k : JSVal) (v : StoreEntry) :
    mapGet (mapSet m k v) k = some v := by
  induction m with
  | nil => simp [mapGet, mapSet]
  | cons kv rest ih =>
    by_cases h : kv.1 = k
    · simp [mapGet, mapSet, h]
    · simp [mapGet, mapSet, h, ih]

theorem length_mapSet_le (m : List (JSVal × StoreEntry)) (k : JSVal) (v : StoreEntry) :
    (mapSet m k v).length ≤ m.length + 1 := by
  induction m with
  | nil => simp [mapSet]
  | cons kv rest ih =>
    by_cases h : kv.1 = k
    · simp [mapSet, h]
    · simp only [mapSet, if_neg h, List.length_cons]
      omega

theorem mapDelete_firstKey (m : List (JSVal × StoreEntry)) :
    mapDelete m (firstKey m) = m.tail := by
  cases m with
  | nil => rfl
  | cons kv rest => simp [mapDelete, firstKey]

theorem mapGet_mapDelete_self (m : List (JSVal × StoreEntry)) (k : JSVal)
    (hnd : (m.map Prod.fst).Nodup) : mapGet (mapDelete m k) k = none := by
  induction m with
  | nil => rfl
  | cons kv rest ih =>
    simp only [List.map_cons, List.nodup_cons] at hnd
    by_cases h : kv.1 = k
    · subst h
      cases hget : mapGet rest kv.1 with
      | none => simp [mapDelete, hget]
      | some v =>
        exfalso
        apply hnd.1
        clear ih hnd
        induction rest with
        | nil => simp [mapGet] at hget
        | cons kv' rest' ih' =>
          rw [mapGet] at hget
          by_cases h' : kv'.1 = kv.1
          · exact List.mem_map.mpr ⟨kv', List.mem_cons_self .., h'⟩
          · rw [if_neg h'] at hget
            exact List.mem_cons_of_mem _ (by
              simpa using ih' (by simpa using hget))
    · simp [mapDelete, h, mapGet, ih hnd.2]

theorem insertByTs_perm (x : RawElement) (l : List RawElement) :
    (insertByTs x l).Perm (x :: l) := by
  induction l with
  | nil => simp [insertByTs]
  | cons y ys ih =>
    rw [insertByTs]
    by_cases h : tsOf y ≤ tsOf x
    · simp [h]
    · rw [if_neg h]
      exact (ih.cons y).trans (List.Perm.swap x y ys)

theorem sortByTsDesc_perm (l : List RawElement) : (sortByTsDesc l).Perm l := by
  induction l with
  | nil => simp [sortByTsDesc]
  | cons x xs ih =>
    rw [sortByTsDesc, List.foldr_cons]
    exact (insertByTs_perm x _).trans ((ih.cons x).trans (List.Perm.refl _))

theorem pairwise_insertByTs (x : RawElement) (l : List RawElement)
    (h : List.Pairwise (fun a b => tsOf b ≤ tsOf a) l) :
    List.Pairwise (fun a b => tsOf b ≤ tsOf a) (insertByTs x l) := by
  induction l with
  | nil => simp [insertByTs]
  | cons y ys ih =>
    rw [insertByTs]
    rcases List.pairwise_cons.mp h with ⟨hy, hys⟩
    by_cases hle : tsOf y ≤ tsOf x
    · rw [if_pos hle]
      refine List.pairwise_cons.mpr ⟨?_, h⟩
      intro z hz
      rcases List.mem_cons.mp hz with hz | hz
      · exact hz ▸ hle
      · exact le_trans (hy z hz) hle
    · rw [if_neg hle]
      refine List.pairwise_cons.mpr ⟨?_, ih hys⟩
      intro z hz
      have hz' := (insertByTs_perm x ys).mem_iff.mp hz
      rcases List.mem_cons.mp hz' with hz' | hz'
      · exact hz' ▸ le_of_not_le hle
      · exact hy z hz'

theorem sortByTsDesc_pairwise (l : List RawElement) :
    List.Pairwise (fun a b => tsOf b ≤ tsOf a) (sortByTsDesc l) := by
  induction l with
  | nil => simp [sortByTsDesc]
  | cons x xs ih =>
    rw [sortByTsDesc, List.foldr_cons]
    exact pairwise_insertByTs x _ ih

theorem filter_insertByTs (x : RawElement) (t : Int) (l : List RawElement) :
    (insertByTs x l).filter (fun d => decide (tsOf d = t))
      = (x :: l).filter (fun d => decide (tsOf d = t)) := by
  induction l with
  | nil => rfl
  | cons y ys ih =>
    rw [insertByTs]
    by_cases hle : tsOf y ≤ tsOf x
    · rw [if_pos hle]
    · rw [if_neg hle]
      have hlt : tsOf x < tsOf y := lt_of_not_le hle
      by_cases hx : tsOf x = t
      · have hy : ¬ tsOf y = t := by omega
        simp only [List.filter_cons, hx, hy] at ih ⊢
        simpa [List.filter_cons, hx, hy] using ih
      · by_cases hy : tsOf y = t
        · simp [List.filter_cons, hx, hy, ih]
        · simp [List.filter_cons, hx, hy, ih]

theorem sortByTsDesc_filter (t : Int) (l : List RawElement) :
    (sortByTsDesc l).filter (fun d => decide (tsOf d = t))
      = l.filter (fun d => decide (tsOf d = t)) := by
  induction l with
  | nil => rfl
  | cons x xs ih =>
    rw [sortByTsDesc, List.foldr_cons]
    rw [show List.foldr insertByTs [] xs = sortByTsDesc xs from rfl] at *
    rw [filter_insertByTs x t (sortByTsDesc xs)]
    simp [List.filter_cons, ih]

theorem filterExcept_ok_subset (p : RawElement → Except Unit Bool)
    (l : List RawElement) (res : List RawElement)
    (h : ElementStorage.filterExcept p l = .ok res) : ∀ d ∈ res, d ∈ l := by
  induction l generalizing res with
  | nil =>
    rw [ElementStorage.filterExcept] at h
    cases h
    intro d hd
    cases hd
  | cons e rest ih =>
    rw [ElementStorage.filterExcept] at h
    cases hp : p e with
    | error err => rw [hp] at h; cases h
    | ok b =>
      rw [hp] at h
      cases htail : ElementStorage.filterExcept p rest with
      | error err => rw [htail] at h; cases h
      | ok tail =>
        rw [htail] at h
        cases h
        intro d hd
        cases b with
        | true =>
          rcases List.mem_cons.mp hd with hd | hd
          · exact hd ▸ List.mem_cons_self ..
          · exact List.mem_cons_of_mem _ (ih tail htail d hd)
        | false => exact List.mem_cons_of_mem _ (ih tail htail d hd)

theorem filterExcept_of_total (p : RawElement → Except Unit Bool) (q : RawElement → Bool)
    (l : List RawElement) (h : ∀ d ∈ l, p d = .ok (q d)) :
    ElementStorage.filterExcept p l = .ok (l.filter q) := by
  induction l with
  | nil => rfl
  | cons e rest ih =>
    rw [ElementStorage.filterExcept, h e (List.mem_cons_self ..),
      ih (fun d hd => h d (List.mem_cons_of_mem _ hd))]
    cases hq : q e <;> simp [List.filter_cons, hq]

/-- The sanitizer never touches `id`, `timestamp`, `url` or `selector`, and
the attributes it returns (and leaves behind in the caller's object) are the
redacted ones. -/
theorem sanitize_ok_fields (e r a : RawElement)
    (h : sanitizeElement e = .ok (r, a)) :
    r.id = e.id ∧ r.timestamp = e.timestamp ∧ r.url = e.url ∧
    r.selector = e.selector ∧ r.attributes = e.attributes.map redactAttrs ∧
    a = { e with attributes := e.attributes.map redactAttrs } := by
  rw [sanitizeElement] at h
  cases hs : scrubStep e.html with
  | error err => rw [hs] at h; cases h
  | ok html1 =>
    rw [hs] at h
    cases h
    exact ⟨rfl, rfl, rfl, rfl, rfl, rfl⟩

/-- Unfolding equation for `get` when the key is absent. -/
theorem get_eq_of_none (s : Store) (now : Int) (id : JSVal)
    (hm : mapGet s.elements id = none) :
    ElementStorage.get s now id = (none, s) := by
  rw [ElementStorage.get, hm]

/-- Unfolding equation for `get` when the key is present. -/
theorem get_eq_of_some (s : Store) (now : Int) (id : JSVal) (en : StoreEntry)
    (hm : mapGet s.elements id = some en) :
    ElementStorage.get s now id =
      if en.expiresAt < now then
        (none, { s with elements := mapDelete s.elements id })
      else (some en.data, s) := by
  rw [ElementStorage.get, hm]

/-! ### Claim C1 -/

/-- Claim C1, counterexample.  The claim says a read never returns an entry
with `expiresAt ≤ now`.  The code deletes only when `Date.now() >
entry.expiresAt`, so at `now = expiresAt` (here both `0`) the entry has
`expiresAt ≤ now` and yet `get` returns it (and `list` does too), and the
read does not remove it. -/
theorem c1_boundary_read_counterexample :
    mapGet c1Store.elements (JSVal.vstr "a".toList)
      = some { data := c1Data, expiresAt := 0 } ∧
    (ElementStorage.get c1Store 0 (JSVal.vstr "a".toList)).1 = some c1Data ∧
    (ElementStorage.get c1Store 0 (JSVal.vstr "a".toList)).2 = c1Store ∧
    (ElementStorage.getAll c1Store 0).1 = [c1Data] := by
  refine ⟨rfl, rfl, rfl, rfl⟩

/-- Claim C1, amended: an entry is returned by `get`/`getAll`/`search` iff
`now ≤ expiresAt` at the time of the call (the code expires strictly:
`Date.now() > expiresAt`); no read returns an entry with `expiresAt < now`,
and a read that encounters such an entry removes it from the store as a side
effect.  The `Nodup` hypothesis is the `Map` key-uniqueness invariant. -/
theorem c1_ttl_read_visibility (s : Store) (now : Int) (id : JSVal)
    (hnd : (s.elements.map Prod.fst).Nodup) :
    (∀ d, (ElementStorage.get s now id).1 = some d ↔
      ∃ en, mapGet s.elements id = some en ∧ en.data = d ∧ now ≤ en.expiresAt) ∧
    (∀ en, mapGet s.elements id = some en → en.expiresAt < now →
      (ElementStorage.get s now id).1 = none ∧
      mapGet (ElementStorage.get s now id).2.elements id = none) ∧
    (∀ d, d ∈ (ElementStorage.getAll s now).1 ↔
      ∃ kv, kv ∈ s.elements ∧ kv.2.data = d ∧ now ≤ kv.2.expiresAt) ∧
    ((ElementStorage.getAll s now).2.elements
      = s.elements.filter (fun kv => !decide (kv.2.expiresAt < now))) ∧
    (∀ q res, (ElementStorage.search s now q).1 = .ok res →
      ∀ d ∈ res, d ∈ (ElementStorage.getAll s now).1) ∧
    (∀ q, (ElementStorage.search s now q).2 = (ElementStorage.getAll s now).2) := by
  refine ⟨?_, ?_, ?_, rfl, ?_, fun q => rfl⟩
  · intro d
    cases hm : mapGet s.elements id with
    | none =>
      rw [get_eq_of_none s now id hm]
      simp [hm]
    | some en =>
      rw [get_eq_of_some s now id en hm]
      by_cases h : en.expiresAt < now
      · rw [if_pos h]
        simp only [hm, Option.some.injEq]
        constructor
        · intro hfalse
          cases hfalse
        · rintro ⟨en', hen', _, hle⟩
          cases hen'
          omega
      · rw [if_neg h]
        simp only [hm, Option.some.injEq]
        constructor
        · intro hd
          exact ⟨en, rfl, hd, by omega⟩
        · rintro ⟨en', hen', hd, _⟩
          cases hen'
          exact hd
  · intro en hm h
    rw [get_eq_of_some s now id en hm, if_pos h]
    exact ⟨rfl, mapGet_mapDelete_self s.elements id hnd⟩
  · intro d
    rw [ElementStorage.getAll]
    simp only
    rw [(sortByTsDesc_perm _).mem_iff, List.mem_map]
    constructor
    · rintro ⟨kv, hkv, hd⟩
      rcases List.mem_filter.mp hkv with ⟨hmem, hp⟩
      refine ⟨kv, hmem, hd, ?_⟩
      simpa [Int.not_lt] using hp
    · rintro ⟨kv, hmem, hd, hle⟩
      refine ⟨kv, List.mem_filter.mpr ⟨hmem, ?_⟩, hd⟩
      simpa [Int.not_lt] using hle
  · intro q res hres d hd
    rw [ElementStorage.search] at hres
    exact filterExcept_ok_subset _ _ _ hres d hd

theorem c1_ttl_read_visibility_witness :
    (ElementStorage.get w1Store 5 (JSVal.vstr "w".toList)).1 = none ∧
    mapGet (ElementStorage.get w1Store 5 (JSVal.vstr "w".toList)).2.elements
      (JSVal.vstr "w".toList) = none :=
  (c1_ttl_read_visibility w1Store 5 (JSVal.vstr "w".toList) (by decide)).2.1
    { data := w1Data, expiresAt := 3 } rfl (by decide)

/-! ### Claim C2 -/

/-- Claim C2, counterexample.  The claim says an eviction happens iff the
live-entry count is `≥` capacity.  The code tests `this.elements.size`,
which also counts expired-but-unpurged entries: here the live count is `0`,
strictly below the capacity `1`, yet admitting a valid record evicts the
(expired) oldest entry. -/
theorem c2_eviction_counterexample :
    liveCount c2Store 10 = 0 ∧
    liveCount c2Store 10 < c2Store.maxElements ∧
    mapGet c2Store.elements (JSVal.vstr "o".toList)
      = some { data := c2Old, expiresAt := 0 } ∧
    ElementStorage.add c2Store 10 c2New = Except.ok (true,
      { c2Store with
          elements := [(JSVal.vstr "n".toList, { data := c2New, expiresAt := 20 })] }) :=
  ⟨rfl, by decide, rfl, rfl⟩

/-- Claim C2, amended: on admission of a record that validates and
sanitizes, an eviction happens iff the **total** stored entry count
(including expired-but-unpurged entries) is `≥` the configured capacity;
exactly one entry is then removed, the first one in the map's insertion
order (`keys().next().value`); and whenever the capacity is `≥ 1` and the
entry count was within capacity, it stays within capacity (so the live
count, a subset, does as well). -/
theorem c2_admit_capacity (s : Store) (now : Int) (e r after : RawElement)
    (hv : validateCapturedElement e = true)
    (hs : sanitizeElement e = .ok (r, after)) :
    (s.elements.length < s.maxElements →
      ElementStorage.add s now e = Except.ok (true,
        { s with elements := (mapSet s.elements (propRead r.id)
            { data := r, expiresAt := now + s.ttl }) })) ∧
    (s.maxElements ≤ s.elements.length →
      ElementStorage.add s now e = Except.ok (true,
        { s with elements := (mapSet s.elements.tail (propRead r.id)
            { data := r, expiresAt := now + s.ttl }) })) ∧
    (∀ b s', ElementStorage.add s now e = Except.ok (b, s') →
      1 ≤ s.maxElements → s.elements.length ≤ s.maxElements →
      s'.elements.length ≤ s.maxElements ∧
      ∀ now', (liveFilter now' s'.elements).length ≤ s.maxElements) := by
  have hv' : (!validateCapturedElement e) = false := by rw [hv]; rfl
  have hadd : ElementStorage.add s now e = Except.ok (true,
      { s with elements := (mapSet
          (if s.maxElements ≤ s.elements.length then
            mapDelete s.elements (firstKey s.elements)
          else s.elements)
          (propRead r.id) { data := r, expiresAt := now + s.ttl }) }) := by
    rw [ElementStorage.add, hv', hs]
    simp
  refine ⟨?_, ?_, ?_⟩
  · intro hlt
    rw [hadd, if_neg (not_le.mpr hlt)]
  · intro hge
    rw [hadd, if_pos hge, mapDelete_firstKey]
  · intro b s' h1 hmax hlen
    rw [hadd] at h1
    simp only [Except.ok.injEq, Prod.mk.injEq] at h1
    obtain ⟨-, hs'⟩ := h1
    subst hs'
    have hbound : (mapSet
        (if s.maxElements ≤ s.elements.length then
          mapDelete s.elements (firstKey s.elements)
        else s.elements)
        (propRead r.id) { data := r, expiresAt := now + s.ttl }).length
          ≤ s.maxElements := by
      by_cases hfull : s.maxElements ≤ s.elements.length
      · rw [if_pos hfull, mapDelete_firstKey]
        have h2 := length_mapSet_le s.elements.tail (propRead r.id)
          { data := r, expiresAt := now + s.ttl }
        have h3 : s.elements.tail.length = s.elements.length - 1 :=
          List.length_tail s.elements
        omega
      · rw [if_neg hfull]
        have h2 := length_mapSet_le s.elements (propRead r.id)
          { data := r, expiresAt := now + s.ttl }
        omega
    exact ⟨hbound, fun now' =>
      le_trans (List.length_filter_le _ _) hbound⟩

/-- Witness for the amended C2 theorem: admitting into an underfull default
store appends the new entry with no eviction. -/
theorem c2_admit_capacity_witness :
    ElementStorage.add defaultStore 7 w2Elem = Except.ok (true,
      { defaultStore with
          elements := [(JSVal.vstr "w2".toList, { data := w2Elem, expiresAt := 3600007 })] }) := by
  exact (c2_admit_capacity defaultStore 7 w2Elem w2Elem w2Elem (by decide) rfl).1
    (by decide)

/-! ### Claim C3 -/

/-- Redaction is the identity on a map with no sensitive key. -/
theorem redactAttrs_id (m : List (Str × Str))
    (h : ∀ kv ∈ m, isSensitiveKey kv.1 = false) : redactAttrs m = m := by
  induction m with
  | nil => rfl
  | cons kv rest ih =>
    rw [redactAttrs, List.map_cons,
      if_neg (by simp [h kv (List.mem_cons_self ..)]),
      show List.map (fun kv => if isSensitiveKey kv.1 then (kv.1, redactedToken) else kv) rest
        = redactAttrs rest from rfl,
      ih (fun kv hkv => h kv (List.mem_cons_of_mem _ hkv))]

/-- Claim C3, counterexample.  `sanitizeElement` spreads the element
shallowly, so the attributes object is shared with the caller and the
redaction loop writes through it: after a successful `sanitize` of a record
with a `token` attribute, the caller's record has changed. -/
theorem c3_caller_mutation_counterexample :
    sanitizeElement c3Elem = Except.ok (c3After, c3After) ∧
    c3After ≠ c3Elem ∧
    c3After.attributes ≠ c3Elem.attributes :=
  ⟨rfl, by decide, by decide⟩

/-- Claim C3, amended: sanitization is a *shallow* copy.  The caller's
primitive fields (`html`, `text`, `screenshot`, ...) are unchanged after the
call, but the attributes map is shared, and the caller observes it redacted;
the call is side-effect-free exactly when no attribute key matches the
blocklist (in particular when `attributes` is absent). -/
theorem c3_sanitize_shallow_copy (e r a : RawElement)
    (h : sanitizeElement e = .ok (r, a)) :
    a.id = e.id ∧ a.timestamp = e.timestamp ∧ a.url = e.url ∧
    a.selector = e.selector ∧ a.html = e.html ∧ a.text = e.text ∧
    a.screenshot = e.screenshot ∧ a.screenshotTruncated = e.screenshotTruncated ∧
    a.attributes = e.attributes.map redactAttrs ∧
    r.attributes = a.attributes ∧
    (e.attributes = none → a = e) ∧
    (∀ m, e.attributes = some m →
      (∀ kv ∈ m, isSensitiveKey kv.1 = false) → a = e) := by
  rw [sanitizeElement] at h
  cases hs : scrubStep e.html with
  | error err => rw [hs] at h; cases h
  | ok html1 =>
    rw [hs] at h
    cases h
    refine ⟨rfl, rfl, rfl, rfl, rfl, rfl, rfl, rfl, rfl, rfl, ?_, ?_⟩
    · intro hnone
      cases e
      simp only at hnone ⊢
      rw [hnone]
      rfl
    · intro m hm hns
      cases e
      simp only at hm ⊢
      rw [hm]
      simp [redactAttrs_id m hns]

/-- Witness for the amended C3 theorem at a concrete record with one
sensitive and one benign attribute. -/
theorem c3_sanitize_shallow_copy_witness :
    w3Red.html = w3Elem.html ∧ w3Red.text = w3Elem.text ∧
    w3Red.attributes = w3Elem.attributes.map redactAttrs := by
  obtain ⟨-, -, -, -, hh, ht, -, -, hattrs, -, -, -⟩ :=
    c3_sanitize_shallow_copy w3Elem w3Red w3Red rfl
  exact ⟨hh, ht, hattrs⟩

/-! ### Claim C4 -/

/-- `scrubStep` on a string-valued `html` always succeeds and returns the
scrubbed string (an empty string is falsy, so the replace block is skipped,
but scrubbing is the identity there anyway). -/
theorem scrubStep_str (s : Str) :
    scrubStep (some (.vstr s)) = .ok (some (.vstr (scrubHtml s))) := by
  by_cases hnil : s = []
  · subst hnil
    rfl
  · rw [scrubStep, if_pos]
    simp [truthyOpt, propRead, JSVal.truthy, hnil]

/-- The stored `text` field in terms of the input `text` field. -/
theorem sanitize_text_eq (e r a : RawElement)
    (h : sanitizeElement e = .ok (r, a)) :
    r.text = if truthyOpt e.text && jsLenGt e.text 10000 then
        (match e.text with
          | some (.vstr s) => some (JSVal.vstr (s.take 10000 ++ truncMarker))
          | v => v)
      else e.text := by
  rw [sanitizeElement] at h
  cases hs : scrubStep e.html with
  | error err => rw [hs] at h; cases h
  | ok html1 => rw [hs] at h; cases h; rfl

/-- The stored `html` field in terms of the scrub result. -/
theorem sanitize_html_eq (e r a : RawElement) (html1 : Option JSVal)
    (hs : scrubStep e.html = .ok html1)
    (h : sanitizeElement e = .ok (r, a)) :
    r.html = if truthyOpt html1 && jsLenGt html1 50000 then capField html1 50000
      else html1 := by
  rw [sanitizeElement, hs] at h
  cases h
  rfl

/-- The stored `screenshot` field and truncation flag. -/
theorem sanitize_shot_eq (e r a : RawElement)
    (h : sanitizeElement e = .ok (r, a)) :
    (r.screenshot, r.screenshotTruncated)
      = if truthyOpt e.screenshot && jsLenGt e.screenshot 1000000 then
          (some (JSVal.vstr []), true)
        else (e.screenshot, e.screenshotTruncated) := by
  rw [sanitizeElement] at h
  cases hs : scrubStep e.html with
  | error err => rw [hs] at h; cases h
  | ok html1 => rw [hs] at h; cases h; rfl

/-- Claim C4, amended: the sizes are capped on the **scrubbed** body, not the
raw input body — the `replace` calls run before the length checks.  For a
string-valued `html` of scrubbed length `> 50000` the stored body is exactly
the first `50000` characters of the scrubbed body followed by the marker; a
scrubbed body of at most `50000` characters is stored as the scrubbed body
(not necessarily the input).  `text` (never scrubbed) and `screenshot`
behave as the claim says: `text` capped at `10000` with the same marker,
`screenshot` over `1000000` replaced wholesale by the empty string with the
truncation flag set. -/
theorem c4_sanitize_size_caps (e r a : RawElement)
    (h : sanitizeElement e = .ok (r, a)) :
    (∀ s, e.html = some (.vstr s) →
      (50000 < (scrubHtml s).length →
        r.html = some (.vstr ((scrubHtml s).take 50000 ++ truncMarker)) ∧
        (scrubHtml s).take 50000 <+: scrubHtml s ∧
        ((scrubHtml s).take 50000).length = 50000) ∧
      ((scrubHtml s).length ≤ 50000 → r.html = some (.vstr (scrubHtml s)))) ∧
    (∀ t, e.text = some (.vstr t) →
      (10000 < t.length →
        r.text = some (.vstr (t.take 10000 ++ truncMarker)) ∧
        t.take 10000 <+: t ∧ (t.take 10000).length = 10000) ∧
      (t.length ≤ 10000 → r.text = some (.vstr t))) ∧
    (∀ p, e.screenshot = some (.vstr p) →
      (1000000 < p.length →
        r.screenshot = some (.vstr []) ∧ r.screenshotTruncated = true) ∧
      (p.length ≤ 1000000 →
        r.screenshot = some (.vstr p) ∧
        r.screenshotTruncated = e.screenshotTruncated)) := by
  refine ⟨?_, ?_, ?_⟩
  · intro s hes
    have hs : scrubStep e.html = .ok (some (.vstr (scrubHtml s))) := by
      rw [hes, scrubStep_str]
    have hr := sanitize_html_eq e r a _ hs h
    constructor
    · intro hlen
      have hne : scrubHtml s ≠ [] := by
        intro h0
        rw [h0] at hlen
        simp at hlen
      rw [if_pos (by
        simp [truthyOpt, propRead, JSVal.truthy, jsLenGt, hlen, hne])] at hr
      refine ⟨hr.trans rfl, ⟨(scrubHtml s).drop 50000, List.take_append_drop _ _⟩, ?_⟩
      rw [List.length_take]
      omega
    · intro hlen
      rw [if_neg (by
        simp [truthyOpt, propRead, JSVal.truthy, jsLenGt]
        omega)] at hr
      exact hr
  · intro t het
    have hr := sanitize_text_eq e r a h
    rw [het] at hr
    constructor
    · intro hlen
      have hne : t ≠ [] := by
        intro h0
        rw [h0] at hlen
        simp at hlen
      rw [if_pos (by
        simp [truthyOpt, propRead, JSVal.truthy, jsLenGt, hlen, hne])] at hr
      refine ⟨hr, ⟨t.drop 10000, List.take_append_drop _ _⟩, ?_⟩
      rw [List.length_take]
      omega
    · intro hlen
      rw [if_neg (by
        simp [truthyOpt, propRead, JSVal.truthy, jsLenGt]
        omega)] at hr
      exact hr
  · intro p hep
    have hr := sanitize_shot_eq e r a h
    rw [hep] at hr
    constructor
    · intro hlen
      have hne : p ≠ [] := by
        intro h0
        rw [h0] at hlen
        simp at hlen
      rw [if_pos (by
        simp [truthyOpt, propRead, JSVal.truthy, jsLenGt, hlen, hne])] at hr
      exact ⟨congrArg Prod.fst hr, congrArg Prod.snd hr⟩
    · intro hlen
      rw [if_neg (by
        simp [truthyOpt, propRead, JSVal.truthy, jsLenGt]
        omega)] at hr
      exact ⟨congrArg Prod.fst hr, congrArg Prod.snd hr⟩

/-- Claim C4, counterexample.  The claim says a body of at most 50,000 units
is stored unchanged.  This admitted record's 18-character body is a script
tag, which the scrub pass (running before the length checks) deletes: the
stored body is the empty string, not the input body. -/
theorem c4_truncation_counterexample :
    validateCapturedElement c4Elem = true ∧
    c4Elem.html = some (JSVal.vstr "<script>a</script>".toList) ∧
    "<script>a</script>".toList.length ≤ 50000 ∧
    ElementStorage.add defaultStore 0 c4Elem = Except.ok (true,
      { defaultStore with
          elements := [(JSVal.vstr "c4".toList,
            { data := { c4Elem with html := some (JSVal.vstr []) },
              expiresAt := 3600000 })] }) ∧
    some (JSVal.vstr []) ≠ c4Elem.html :=
  ⟨by decide, rfl, by decide, rfl, by decide⟩

/-- Witness for the amended C4 theorem: a 2-character `text` is within the
cap and stored unchanged. -/
theorem c4_sanitize_size_caps_witness :
    sanitizeElement w4Elem = Except.ok (w4Elem, w4Elem) ∧
    w4Elem.text = some (JSVal.vstr "tt".toList) :=
  ⟨rfl, ((c4_sanitize_size_caps w4Elem w4Elem w4Elem rfl).2.1 "tt".toList rfl).2
    (by decide)⟩

/-! ### Claim C5 -/

/-- Claim C5, counterexample.  The claim says ties in `capturedAt` are broken
with the most recently inserted record first.  `Array.prototype.sort` is
stable, so the code keeps tied records in map iteration order, i.e. the
**earliest** inserted first: here `list()` returns `[a, b]`, not `[b, a]`. -/
theorem c5_tie_order_counterexample :
    tsOf c5A = tsOf c5B ∧ c5A ≠ c5B ∧
    c5Store.elements
      = [(JSVal.vstr "a".toList, { data := c5A, expiresAt := 100 }),
         (JSVal.vstr "b".toList, { data := c5B, expiresAt := 100 })] ∧
    (ElementStorage.getAll c5Store 0).1 = [c5A, c5B] :=
  ⟨rfl, by decide, rfl, rfl⟩

/-- Claim C5, amended: `list()` purges the expired entries and returns the
survivors sorted by `capturedAt` descending; ties in `capturedAt` are broken
by insertion order with the **earliest** inserted record first (the sort is
stable over map iteration order).  Stated as: the result is a permutation of
the live records, it is pairwise non-increasing in `capturedAt`, and for
every timestamp the records carrying it appear exactly in live insertion
order; the surviving map is exactly the live entries. -/
theorem c5_list_ordering (s : Store) (now : Int) :
    (ElementStorage.getAll s now).1.Perm
      ((liveFilter now s.elements).map (fun kv => kv.2.data)) ∧
    List.Pairwise (fun a b => tsOf b ≤ tsOf a) (ElementStorage.getAll s now).1 ∧
    (∀ t : Int, (ElementStorage.getAll s now).1.filter (fun d => decide (tsOf d = t))
      = ((liveFilter now s.elements).map (fun kv => kv.2.data)).filter
          (fun d => decide (tsOf d = t))) ∧
    (ElementStorage.getAll s now).2.elements = liveFilter now s.elements :=
  ⟨sortByTsDesc_perm _, sortByTsDesc_pairwise _,
    fun t => sortByTsDesc_filter t _, rfl⟩

/-! ### Claim C6 -/

/-- A field test of the spec-side search predicate succeeds exactly when the
field holds a string whose lower-cased form contains the lower-cased query
as a contiguous substring. -/
theorem fieldMatch_true_iff (lq : Str) (v : Option JSVal) :
    fieldMatch lq v = true ↔ ∃ a, v = some (JSVal.vstr a) ∧ lq <:+: lowerStr a := by
  cases v with
  | none => simp [fieldMatch]
  | some w =>
    cases w with
    | vstr a => simp [fieldMatch, strIncludes_true_iff]
    | vnum n => simp [fieldMatch]
    | vbool b => simp [fieldMatch]
    | vnull => simp [fieldMatch]
    | vundefined => simp [fieldMatch]

theorem searchMatchSpec_true_iff (lq : Str) (d : RawElement) :
    searchMatchSpec lq d = true ↔
      ((∃ a, d.selector = some (JSVal.vstr a) ∧ lq <:+: lowerStr a) ∨
       (∃ a, d.text = some (JSVal.vstr a) ∧ lq <:+: lowerStr a) ∨
       (∃ a, d.html = some (JSVal.vstr a) ∧ lq <:+: lowerStr a) ∨
       (∃ a, d.url = some (JSVal.vstr a) ∧ lq <:+: lowerStr a)) := by
  simp [searchMatchSpec, Bool.or_eq_true, fieldMatch_true_iff, or_assoc]

/-- On a record whose four searched fields are strings, the throwing filter
predicate of `search` computes the spec-side predicate. -/
theorem matchesQuery_typed (lq : Str) (d : RawElement)
    (hsel : ∃ a, d.selector = some (JSVal.vstr a))
    (htx : ∃ a, d.text = some (JSVal.vstr a))
    (hht : ∃ a, d.html = some (JSVal.vstr a))
    (hu : ∃ a, d.url = some (JSVal.vstr a)) :
    ElementStorage.matchesQuery lq d = .ok (searchMatchSpec lq d) := by
  obtain ⟨a1, h1⟩ := hsel
  obtain ⟨a2, h2⟩ := htx
  obtain ⟨a3, h3⟩ := hht
  obtain ⟨a4, h4⟩ := hu
  rw [ElementStorage.matchesQuery, searchMatchSpec, h1, h2, h3, h4]
  by_cases b1 : strIncludes lq (lowerStr a1) <;>
    by_cases b2 : strIncludes lq (lowerStr a2) <;>
      by_cases b3 : strIncludes lq (lowerStr a3) <;>
        simp [ElementStorage.jsToLowerStr, propRead, fieldMatch, b1, b2, b3]

/-- Claim C6: `search(q)` succeeds on a store whose live records have
string-typed `selector`, `text`, `html` and `url`, and returns exactly the
records of `list()` (in `list()`'s order) whose lower-cased `selector`,
`text`, `html` or `url` contains the lower-cased query as a substring. -/
theorem c6_search_correct (s : Store) (now : Int) (q : Str)
    (hty : ∀ kv ∈ liveFilter now s.elements,
      (∃ a, kv.2.data.selector = some (JSVal.vstr a)) ∧
      (∃ a, kv.2.data.text = some (JSVal.vstr a)) ∧
      (∃ a, kv.2.data.html = some (JSVal.vstr a)) ∧
      (∃ a, kv.2.data.url = some (JSVal.vstr a))) :
    (ElementStorage.search s now q).1
      = Except.ok ((ElementStorage.getAll s now).1.filter (searchMatchSpec (lowerStr q))) ∧
    (∀ d, d ∈ (ElementStorage.getAll s now).1.filter (searchMatchSpec (lowerStr q)) ↔
      d ∈ (ElementStorage.getAll s now).1 ∧
      ((∃ a, d.selector = some (JSVal.vstr a) ∧ lowerStr q <:+: lowerStr a) ∨
       (∃ a, d.text = some (JSVal.vstr a) ∧ lowerStr q <:+: lowerStr a) ∨
       (∃ a, d.html = some (JSVal.vstr a) ∧ lowerStr q <:+: lowerStr a) ∨
       (∃ a, d.url = some (JSVal.vstr a) ∧ lowerStr q <:+: lowerStr a))) := by
  have htyped : ∀ d ∈ (ElementStorage.getAll s now).1,
      (∃ a, d.selector = some (JSVal.vstr a)) ∧
      (∃ a, d.text = some (JSVal.vstr a)) ∧
      (∃ a, d.html = some (JSVal.vstr a)) ∧
      (∃ a, d.url = some (JSVal.vstr a)) := by
    intro d hd
    have hd' := (sortByTsDesc_perm _).mem_iff.mp hd
    rcases List.mem_map.mp hd' with ⟨kv, hkv, rfl⟩
    exact hty kv hkv
  constructor
  · rw [ElementStorage.search]
    exact filterExcept_of_total _ _ _ (fun d hd =>
      matchesQuery_typed (lowerStr q) d (htyped d hd).1 (htyped d hd).2.1
        (htyped d hd).2.2.1 (htyped d hd).2.2.2)
  · intro d
    rw [List.mem_filter, searchMatchSpec_true_iff]

/-- Witness for the C6 theorem: a mixed-case query matches the mixed-case
selector of the only live record. -/
theorem c6_search_correct_witness :
    (ElementStorage.search w6Store 0 "HeLL".toList).1 = Except.ok [w6Elem] := by
  have hty : ∀ kv ∈ liveFilter 0 w6Store.elements,
      (∃ a, kv.2.data.selector = some (JSVal.vstr a)) ∧
      (∃ a, kv.2.data.text = some (JSVal.vstr a)) ∧
      (∃ a, kv.2.data.html = some (JSVal.vstr a)) ∧
      (∃ a, kv.2.data.url = some (JSVal.vstr a)) := by
    intro kv hkv
    have heq : liveFilter 0 w6Store.elements
        = [(JSVal.vstr "w6".toList, { data := w6Elem, expiresAt := 100 })] := rfl
    rw [heq, List.mem_singleton] at hkv
    subst hkv
    exact ⟨⟨_, rfl⟩, ⟨_, rfl⟩, ⟨_, rfl⟩, ⟨_, rfl⟩⟩
  exact ((c6_search_correct w6Store 0 "HeLL".toList hty).1).trans
    (congrArg Except.ok (by decide))

/-! ### Claim C7 -/

/-- Claim C7: when validation fails, `add` returns `false` and the store —
entries, expiries, and all — is exactly the one passed in.  (Validation runs
before the sanitizer and before any map mutation.) -/
theorem c7_invalid_add_noop (s : Store) (now : Int) (e : RawElement)
    (h : validateCapturedElement e = false) :
    ElementStorage.add s now e = Except.ok (false, s) := by
  rw [ElementStorage.add, h]
  rfl

/-- Witness for C7: an empty `id` fails validation and the default store is
returned untouched. -/
theorem c7_invalid_add_noop_witness :
    validateCapturedElement w7Elem = false ∧
    ElementStorage.add defaultStore 0 w7Elem = Except.ok (false, defaultStore) :=
  ⟨by decide, c7_invalid_add_noop defaultStore 0 w7Elem (by decide)⟩

/-! ### Claim C8 -/

/-- Claim C8: `destroy` is idempotent — a second call is a no-op (the model
is total, so no error is possible) — and after it the store is empty with
the sweep timer cancelled and nulled. -/
theorem c8_destroy_idempotent (s : Store) :
    ElementStorage.destroy (ElementStorage.destroy s) = ElementStorage.destroy s ∧
    (ElementStorage.destroy s).elements = [] ∧
    (ElementStorage.destroy s).timerActive = false := by
  cases s with
  | mk els mx t tA =>
    cases tA <;> simp [ElementStorage.destroy, ElementStorage.clear]

/-! ### Claim C9 -/

/-- Claim C9: for every admitted record with an attributes map `m`, the
stored attributes are the redacted ones: every key whose lower-cased form
contains a blocklist substring (`password`, `token`, `secret`, `key`,
`auth`) carries exactly the fixed redaction token, every other key keeps its
original value, and nothing else is in the stored map. -/
theorem c9_redaction_stored (s : Store) (now : Int) (e : RawElement)
    (m : List (Str × Str)) (b : Bool) (s' : Store)
    (hm : e.attributes = some m)
    (hadd : ElementStorage.add s now e = Except.ok (b, s'))
    (hb : b = true) :
    (∃ en, mapGet s'.elements (propRead e.id) = some en ∧
      en.data.attributes = some (redactAttrs m)) ∧
    (∀ k v, (k, v) ∈ m →
      (isSensitiveKey k = true → (k, redactedToken) ∈ redactAttrs m) ∧
      (isSensitiveKey k = false → (k, v) ∈ redactAttrs m)) ∧
    (∀ k v', (k, v') ∈ redactAttrs m → ∃ v, (k, v) ∈ m ∧
      ((isSensitiveKey k = true ∧ v' = redactedToken) ∨
       (isSensitiveKey k = false ∧ v' = v))) ∧
    (∀ k, isSensitiveKey k = true ↔ ∃ p, p ∈ sensitiveAttrs ∧ p <:+: lowerStr k) := by
  subst hb
  refine ⟨?_, ?_, ?_, ?_⟩
  · rw [ElementStorage.add] at hadd
    by_cases hv : validateCapturedElement e = true
    · rw [hv] at hadd
      simp only [Bool.not_true] at hadd
      rw [if_neg (by simp)] at hadd
      cases hsan : sanitizeElement e with
      | error err =>
        rw [hsan] at hadd
        simp at hadd
      | ok pr =>
        obtain ⟨r, after⟩ := pr
        rw [hsan] at hadd
        have hadd2 : Except.ok (ε := Unit)
            (true, { s with elements := (mapSet
              (if s.maxElements ≤ s.elements.length then
                mapDelete s.elements (firstKey s.elements)
              else s.elements)
              (propRead r.id) { data := r, expiresAt := now + s.ttl }) })
            = Except.ok (true, s') := hadd
        have hs' := congrArg Prod.snd (Except.ok.inj hadd2)
        simp only at hs'
        subst hs'
        obtain ⟨hid, -, -, -, hattrs, -⟩ := sanitize_ok_fields e r after hsan
        refine ⟨{ data := r, expiresAt := now + s.ttl }, ?_, ?_⟩
        · simp only
          rw [← hid, mapGet_mapSet_self]
        · simp only
          rw [hattrs, hm, Option.map]
    · rw [Bool.not_eq_true] at hv
      rw [hv] at hadd
      simp at hadd
  · intro k v hkv
    constructor
    · intro hsk
      exact List.mem_map.mpr ⟨(k, v), hkv, by simp [hsk]⟩
    · intro hsk
      exact List.mem_map.mpr ⟨(k, v), hkv, by simp [hsk]⟩
  · intro k v' hkv'
    rcases List.mem_map.mp hkv' with ⟨⟨k0, v0⟩, h0, hf⟩
    by_cases hs0 : isSensitiveKey k0
    · rw [if_pos hs0] at hf
      obtain ⟨rfl, rfl⟩ := Prod.mk.injEq .. ▸ hf
      exact ⟨v0, h0, Or.inl ⟨hs0, rfl⟩⟩
    · rw [if_neg hs0] at hf
      obtain ⟨rfl, rfl⟩ := Prod.mk.injEq .. ▸ hf
      exact ⟨v0, h0, Or.inr ⟨by simpa using hs0, rfl⟩⟩
  · intro k
    simp [isSensitiveKey, List.any_eq_true, strIncludes_true_iff]

/-- Witness for C9 at a concrete admission: the `x-token` key is stored with
the redaction token and the `class` key keeps its value. -/
theorem c9_redaction_stored_witness :
    ("x-token".toList, redactedToken) ∈ redactAttrs c9Attrs ∧
    ("class".toList, "btn".toList) ∈ redactAttrs c9Attrs ∧
    isSensitiveKey "x-token".toList = true := by
  obtain ⟨-, hfwd, -, -⟩ :=
    c9_redaction_stored defaultStore 0 c9Elem c9Attrs true c9OutStore rfl rfl rfl
  exact ⟨(hfwd "x-token".toList "v".toList (by decide)).1 (by decide),
    (hfwd "class".toList "btn".toList (by decide)).2 (by decide), by decide⟩

/-! ### Claim C10 -/

/-- Claim C10: validation checks only the presence of `html`/`text`, not
their types, so a record whose `text` is the number `7` is admitted; the
sanitizer's length guards are falsy on it so it is stored as-is; and a
subsequent `search` whose query misses the selector reaches
`element.text.toLowerCase()` and throws a `TypeError` — `search` is not
total over admissible records. -/
theorem c10_search_typeerror_on_admitted :
    c10Elem.text = some (JSVal.vnum 7) ∧
    validateCapturedElement c10Elem = true ∧
    ElementStorage.add defaultStore 0 c10Elem = Except.ok (true, c10Store) ∧
    (ElementStorage.search c10Store 0 "zzz".toList).1 = Except.error () :=
  ⟨rfl, by decide, rfl, rfl⟩
